import Mathlib

set_option exponentiation.threshold 4000
set_option maxRecDepth 20000

/- Shallow embedding of the arithmetic-expression evaluator of src/calc.rs
(tokenizer, shunting-yard converter, RPN evaluator, result formatting).

Modelling conventions.
Rust f64 values are modelled by the type F: an exact rational (the finite
constructor) together with inf, neginf and nan.  Finite arithmetic is exact
rational arithmetic; a result whose magnitude exceeds the largest finite
double overflows to the corresponding infinity, as IEEE-754 arithmetic does.
Rounding of in-range results is not modelled: every literal and every
arithmetic result exercised by the theorems below is exactly representable
in f64, where f64 arithmetic and exact arithmetic agree.
The transcendental operations (sin, cos, tan, sqrt of a non-square,
fractional powers of a positive base) return rational stand-in values; their
true f64 values are irrational, and no theorem below depends on them.
Rust Vec stacks become lists whose head is the top of the stack; the output
vector of the converter is a list appended on the right.
The unreachable macro in eval_rpn aborts the process without returning a
Result; it is modelled as the distinguished outcome PResult.fatal, which the
top-level evaluate propagates.  Fixed-precision formatting with 12 decimal
digits rounds to nearest; Rust breaks decimal ties to even, but a tie is
impossible for a dyadic f64 value, so half-up rounding is used here. -/

deriving instance DecidableEq for Except

namespace AuroCalc

/- The model of f64: exact finite rationals plus the special values. -/
inductive F where
  | finite (q : ℚ)
  | inf
  | neginf
  | nan
deriving DecidableEq, Repr

/- Largest finite f64, (2 - 2 ^ (-52)) * 2 ^ 1023. -/
def maxF64 : ℚ := ((2 ^ 1024 - 2 ^ 971 : ℕ) : ℚ)

/- Injection of an exact rational result into F, overflowing to infinity
beyond the finite range of f64. -/
def mkF (q : ℚ) : F :=
  if q > maxF64 then F.inf else if q < -maxF64 then F.neginf else F.finite q

/- The Rust comparison v == 0.0 (both 0.0 and -0.0 satisfy it; the rational
model has a single zero). -/
def F.eqZero : F → Bool
  | F.finite q => q == 0
  | _ => false

def F.isFinite : F → Bool
  | F.finite _ => true
  | _ => false

/- The Rust comparison a < b on f64 (false whenever an operand is NaN). -/
def F.lt : F → F → Bool
  | F.nan, _ => false
  | _, F.nan => false
  | F.neginf, F.neginf => false
  | F.neginf, _ => true
  | _, F.neginf => false
  | F.inf, _ => false
  | F.finite _, F.inf => true
  | F.finite a, F.finite b => a < b

def F.add : F → F → F
  | F.nan, _ => F.nan
  | _, F.nan => F.nan
  | F.finite a, F.finite b => mkF (a + b)
  | F.inf, F.neginf => F.nan
  | F.neginf, F.inf => F.nan
  | F.inf, _ => F.inf
  | _, F.inf => F.inf
  | F.neginf, _ => F.neginf
  | _, F.neginf => F.neginf

def F.sub : F → F → F
  | F.nan, _ => F.nan
  | _, F.nan => F.nan
  | F.finite a, F.finite b => mkF (a - b)
  | F.inf, F.inf => F.nan
  | F.neginf, F.neginf => F.nan
  | F.inf, _ => F.inf
  | F.neginf, _ => F.neginf
  | _, F.inf => F.neginf
  | _, F.neginf => F.inf

def F.mul : F → F → F
  | F.nan, _ => F.nan
  | _, F.nan => F.nan
  | F.finite a, F.finite b => mkF (a * b)
  | F.inf, F.finite b => if b == 0 then F.nan else if b > 0 then F.inf else F.neginf
  | F.finite a, F.inf => if a == 0 then F.nan else if a > 0 then F.inf else F.neginf
  | F.neginf, F.finite b => if b == 0 then F.nan else if b > 0 then F.neginf else F.inf
  | F.finite a, F.neginf => if a == 0 then F.nan else if a > 0 then F.neginf else F.inf
  | F.inf, F.inf => F.inf
  | F.neginf, F.neginf => F.inf
  | F.inf, F.neginf => F.neginf
  | F.neginf, F.inf => F.neginf

/- Division; the evaluator only reaches it after the b == 0.0 guard, so the
finite-by-zero case (NaN here) is never exercised. -/
def F.div : F → F → F
  | F.nan, _ => F.nan
  | _, F.nan => F.nan
  | F.finite a, F.finite b => if b == 0 then F.nan else mkF (a / b)
  | F.finite _, F.inf => F.finite 0
  | F.finite _, F.neginf => F.finite 0
  | F.inf, F.finite b => if b < 0 then F.neginf else F.inf
  | F.neginf, F.finite b => if b < 0 then F.inf else F.neginf
  | F.inf, F.inf => F.nan
  | F.inf, F.neginf => F.nan
  | F.neginf, F.inf => F.nan
  | F.neginf, F.neginf => F.nan

/- Stand-in for a fractional power of a positive base; the exact f64 value
is irrational and no theorem below depends on it. -/
def powFracApprox (_a _b : ℚ) : ℚ := 1

/- The Rust intrinsic f64::powf, following IEEE-754 pow.  Integer exponents
are computed exactly and overflow to infinity; a fractional exponent of a
negative base is NaN; a fractional power of a positive base uses the
stand-in above. -/
def F.powf (a b : F) : F :=
  if b == F.finite 0 then F.finite 1
  else if a == F.finite 1 then F.finite 1
  else
    match a, b with
    | F.nan, _ => F.nan
    | _, F.nan => F.nan
    | F.finite q, F.finite r =>
      if q == 0 then (if r > 0 then F.finite 0 else F.inf)
      else if r.den = 1 then
        (if r.num ≥ 0 then mkF (q ^ r.num.toNat) else mkF ((q ^ (-r.num).toNat)⁻¹))
      else if q < 0 then F.nan
      else mkF (powFracApprox q r)
    | F.finite q, F.inf =>
      if q = -1 then F.finite 1 else if -1 < q ∧ q < 1 then F.finite 0 else F.inf
    | F.finite q, F.neginf =>
      if q = -1 then F.finite 1 else if -1 < q ∧ q < 1 then F.inf else F.finite 0
    | F.inf, F.finite r => if r > 0 then F.inf else F.finite 0
    | F.inf, F.inf => F.inf
    | F.inf, F.neginf => F.finite 0
    | F.neginf, F.finite r =>
      if r.den = 1 ∧ r.num % 2 ≠ 0 then (if r > 0 then F.neginf else F.finite 0)
      else (if r > 0 then F.inf else F.finite 0)
    | F.neginf, F.inf => F.inf
    | F.neginf, F.neginf => F.finite 0

/- Exact square root of a perfect-square rational; stand-in 0 otherwise
(the exact f64 value is then irrational; no theorem depends on it). -/
def sqrtQ (q : ℚ) : ℚ :=
  let a := q.num.toNat
  let b := q.den
  if Nat.sqrt a * Nat.sqrt a = a ∧ Nat.sqrt b * Nat.sqrt b = b then
    (Nat.sqrt a : ℚ) / (Nat.sqrt b : ℚ)
  else 0

def F.sqrt : F → F
  | F.finite q => F.finite (sqrtQ q)
  | F.inf => F.inf
  | F.neginf => F.nan
  | F.nan => F.nan

/- Stand-ins for the trigonometric intrinsics; the true f64 values are
irrational and no theorem below depends on them.  On f64 they are always
finite for finite arguments and NaN for non-finite arguments. -/
def sinQ (_q : ℚ) : ℚ := 0

def cosQ (_q : ℚ) : ℚ := 0

def tanQ (_q : ℚ) : ℚ := 0

def F.sin : F → F
  | F.finite q => F.finite (sinQ q)
  | _ => F.nan

def F.cos : F → F
  | F.finite q => F.finite (cosQ q)
  | _ => F.nan

def F.tan : F → F
  | F.finite q => F.finite (tanQ q)
  | _ => F.nan

/- enum Op of src/calc.rs. -/
inductive Op where
  | add
  | sub
  | mul
  | div
  | pow
deriving DecidableEq, Repr

def Op.precedence : Op → Nat
  | Op.add => 1
  | Op.sub => 1
  | Op.mul => 2
  | Op.div => 2
  | Op.pow => 3

def Op.is_right_associative : Op → Bool
  | Op.pow => true
  | _ => false

/- enum Token of src/calc.rs. -/
inductive Token where
  | number (x : F)
  | op (o : Op)
  | lparen
  | rparen
  | ident (name : String)
  | func (name : String)
deriving DecidableEq, Repr

/- The outcome of a call: an Ok value, an Err value, or a process abort
through the unreachable macro (which never returns a Result at all). -/
inductive PResult (α : Type) where
  | ok (a : α)
  | err (e : String)
  | fatal (msg : String)
deriving DecidableEq, Repr

/- The inner number-scanning loop of tokenize (src/calc.rs lines 59 to 71):
consumes digits and at most one further dot, starting from the already
peeked first character, which is NOT consumed beforehand; dotSeen is
initially true when that first character is a dot, so a leading dot stops
the scan at once with an empty literal. -/
def scanNum (dotSeen : Bool) : List Char → List Char × List Char
  | [] => ([], [])
  | c :: rest =>
    if c.isDigit then
      let p := scanNum dotSeen rest
      (c :: p.1, p.2)
    else if c = '.' then
      if dotSeen then ([], c :: rest)
      else
        let p := scanNum true rest
        (c :: p.1, p.2)
    else ([], c :: rest)

/- The identifier-scanning loop of tokenize (src/calc.rs lines 81 to 88). -/
def scanIdent : List Char → List Char × List Char
  | [] => ([], [])
  | c :: rest =>
    if c.isAlphanum ∨ c = '_' then
      let p := scanIdent rest
      (c :: p.1, p.2)
    else ([], c :: rest)

def digitsVal (l : List Char) : Nat :=
  l.foldl (fun a c => 10 * a + (c.toNat - 48)) 0

/- The Rust call s.parse::<f64>() restricted to the shapes scanNum can
produce (digit runs with at most one dot): the empty string fails, a string
of digits with an optional dot parses to its exact decimal value. -/
def parseNum (l : List Char) : Option ℚ :=
  let ip := l.takeWhile Char.isDigit
  let rest := l.dropWhile Char.isDigit
  match rest with
  | [] => if ip.isEmpty then none else some (digitsVal ip : ℚ)
  | '.' :: fp =>
    if fp.all Char.isDigit && (!ip.isEmpty || !fp.isEmpty) then
      some ((digitsVal ip : ℚ) + (digitsVal fp : ℚ) / (10 : ℚ) ^ fp.length)
    else none
  | _ => none

/- The main tokenizer loop (src/calc.rs lines 50 to 140).  The Bool state is
expect_unary.  The fuel argument only makes the recursion structural: every
recursive call consumes at least one character (the number branch recurses
only when the scanned literal parsed, hence was nonempty), so the initial
fuel, length + 1, is never exhausted. -/
def tokenizeGo : Nat → List Char → Bool → Except String (List Token)
  | 0, _, _ => Except.error "unreachable fuel bound"
  | fuel + 1, cs, expect_unary =>
    match cs with
    | [] => Except.ok []
    | c :: rest =>
      if c.isWhitespace then tokenizeGo fuel rest expect_unary
      else if c.isDigit ∨ c = '.' then
        let p := scanNum (c == '.') (c :: rest)
        match parseNum p.1 with
        | none => Except.error "잘못된 숫자 형식"
        | some q => (tokenizeGo fuel p.2 false).map (fun ts => Token.number (mkF q) :: ts)
      else if c.isAlpha then
        let p := scanIdent (c :: rest)
        (tokenizeGo fuel p.2 true).map (fun ts => Token.ident (String.mk p.1) :: ts)
      else
        match c with
        | '+' => (tokenizeGo fuel rest true).map (fun ts => Token.op Op.add :: ts)
        | '-' =>
          if expect_unary then
            (tokenizeGo fuel rest expect_unary).map
              (fun ts => Token.number (F.finite 0) :: Token.op Op.sub :: ts)
          else
            (tokenizeGo fuel rest true).map (fun ts => Token.op Op.sub :: ts)
        | '*' => (tokenizeGo fuel rest true).map (fun ts => Token.op Op.mul :: ts)
        | '/' => (tokenizeGo fuel rest true).map (fun ts => Token.op Op.div :: ts)
        | '^' => (tokenizeGo fuel rest true).map (fun ts => Token.op Op.pow :: ts)
        | '(' => (tokenizeGo fuel rest true).map (fun ts => Token.lparen :: ts)
        | ')' => (tokenizeGo fuel rest false).map (fun ts => Token.rparen :: ts)
        | _ => Except.error ("알 수 없는 문자: " ++ String.mk [c])

def tokenize (input : String) : Except String (List Token) :=
  tokenizeGo (input.data.length + 1) input.data true

/- The operator-popping loop of the Op branch of to_rpn (src/calc.rs lines
158 to 166): pop while the top of the operator stack is an operator of
strictly higher precedence, or of equal precedence when the incoming
operator is left-associative. -/
def popOps (op1 : Op) : List Token → List Token → List Token × List Token
  | out, Token.op op2 :: restOps =>
    if op1.precedence < op2.precedence
        ∨ (op1.precedence = op2.precedence ∧ op1.is_right_associative = false) then
      popOps op1 (out ++ [Token.op op2]) restOps
    else (out, Token.op op2 :: restOps)
  | out, ops => (out, ops)

/- The RightParen loop of to_rpn (src/calc.rs lines 171 to 182): pop to the
output until a LeftParen is popped, then resolve a pending identifier under
it into a Function token.  Exhausting the stack without meeting a LeftParen
ends the loop silently. -/
def popUntilLParen : List Token → List Token → List Token × List Token
  | out, [] => (out, [])
  | out, Token.lparen :: restOps =>
    match restOps with
    | Token.ident name :: restOps2 => (out ++ [Token.func name], restOps2)
    | _ => (out, restOps)
  | out, t :: restOps => popUntilLParen (out ++ [t]) restOps

/- The final drain of to_rpn (src/calc.rs lines 187 to 192). -/
def drainOps : List Token → List Token → Except String (List Token)
  | out, [] => Except.ok out
  | _, Token.lparen :: _ => Except.error "괄호가 올바르지 않습니다"
  | _, Token.rparen :: _ => Except.error "괄호가 올바르지 않습니다"
  | out, t :: restOps => drainOps (out ++ [t]) restOps

/- The main loop of to_rpn (src/calc.rs lines 149 to 185). -/
def rpnGo : List Token → List Token → List Token → Except String (List Token)
  | out, ops, [] => drainOps out ops
  | out, ops, t :: ts =>
    match t with
    | Token.number x => rpnGo (out ++ [Token.number x]) ops ts
    | Token.ident name => rpnGo out (Token.ident name :: ops) ts
    | Token.func name => rpnGo (out ++ [Token.func name]) ops ts
    | Token.op op1 =>
      let p := popOps op1 out ops
      rpnGo p.1 (Token.op op1 :: p.2) ts
    | Token.lparen => rpnGo out (Token.lparen :: ops) ts
    | Token.rparen =>
      let p := popUntilLParen out ops
      rpnGo p.1 p.2 ts

def to_rpn (tokens : List Token) : Except String (List Token) :=
  rpnGo [] [] tokens

/- Function dispatch of eval_rpn (src/calc.rs lines 202 to 215), without
the finiteness check, which the caller applies to the Ok value. -/
def applyFunc (name : String) (x : F) : Except String F :=
  if name = "sqrt" then
    if F.lt x (F.finite 0) then Except.error "sqrt의 입력은 음수가 될 수 없습니다"
    else Except.ok (F.sqrt x)
  else if name = "sin" then Except.ok (F.sin x)
  else if name = "cos" then Except.ok (F.cos x)
  else if name = "tan" then Except.ok (F.tan x)
  else Except.error ("알 수 없는 함수: " ++ name)

/- Operator dispatch of eval_rpn (src/calc.rs lines 219 to 230): a is the
left operand, b the right operand (popped first). -/
def applyOp (op : Op) (a b : F) : Except String F :=
  match op with
  | Op.add => Except.ok (F.add a b)
  | Op.sub => Except.ok (F.sub a b)
  | Op.mul => Except.ok (F.mul a b)
  | Op.div =>
    if F.eqZero b then Except.error "0으로 나눌 수 없습니다"
    else Except.ok (F.div a b)
  | Op.pow => Except.ok (F.powf a b)

/- The main loop of eval_rpn (src/calc.rs lines 197 to 243); the value
stack has its top at the head.  A bare identifier reaches the unreachable
macro, modelled as the fatal outcome. -/
def evalGo : List F → List Token → PResult F
  | stack, [] =>
    match stack with
    | [v] => PResult.ok v
    | _ => PResult.err "표현식이 올바르지 않습니다"
  | stack, Token.number x :: ts => evalGo (x :: stack) ts
  | stack, Token.func name :: ts =>
    match stack with
    | [] => PResult.err "피연산자가 부족합니다"
    | x :: stackRest =>
      match applyFunc name x with
      | Except.error e => PResult.err e
      | Except.ok v =>
        if F.isFinite v then evalGo (v :: stackRest) ts
        else PResult.err "유효하지 않은 결과"
  | stack, Token.op op :: ts =>
    match stack with
    | [] => PResult.err "피연산자가 부족합니다"
    | [_] => PResult.err "피연산자가 부족합니다"
    | b :: a :: stackRest =>
      match applyOp op a b with
      | Except.error e => PResult.err e
      | Except.ok v => evalGo (v :: stackRest) ts
  | _, Token.lparen :: _ => PResult.err "RPN 단계에서 잘못된 토큰"
  | _, Token.rparen :: _ => PResult.err "RPN 단계에서 잘못된 토큰"
  | _, Token.ident _ :: _ => PResult.fatal "Ident는 변환 단계에서만 사용됩니다"

def eval_rpn (rpn : List Token) : PResult F :=
  evalGo [] rpn

/- Decimal digit characters used by the fixed-point formatter. -/
def digitChar (n : Nat) : Char :=
  if n % 10 = 0 then '0'
  else if n % 10 = 1 then '1'
  else if n % 10 = 2 then '2'
  else if n % 10 = 3 then '3'
  else if n % 10 = 4 then '4'
  else if n % 10 = 5 then '5'
  else if n % 10 = 6 then '6'
  else if n % 10 = 7 then '7'
  else if n % 10 = 8 then '8'
  else '9'

/- Most-significant-first decimal digits of a natural number; the fuel only
makes the recursion structural and n + 1 is always sufficient. -/
def natDigitsAux : Nat → Nat → List Char
  | 0, _ => []
  | fuel + 1, n =>
    if n < 10 then [digitChar n]
    else natDigitsAux fuel (n / 10) ++ [digitChar n]

def natDigits (n : Nat) : List Char :=
  natDigitsAux (n + 1) n

/- Round to the nearest integer.  Rust fixed-precision formatting breaks
ties to even, but ties are impossible for f64 inputs (a dyadic rational
times 10 ^ 12 is never an exact half), so half-up rounding is equal to it
on every value the code can produce. -/
def roundHalf (q : ℚ) : ℤ :=
  Int.floor (q + 1 / 2)

/- The Rust formatting template with precision 12 applied to a finite
value: sign, integer digits, a dot, and exactly twelve fraction digits. -/
def fixed12 (q : ℚ) : List Char :=
  let m : Nat := (roundHalf (q * 1000000000000)).natAbs
  let intPart := natDigits (m / 1000000000000)
  let fracPart := natDigits (m % 1000000000000)
  (if q < 0 then ['-'] else []) ++
    intPart ++ '.' :: (List.replicate (12 - fracPart.length) '0' ++ fracPart)

/- The Rust formatting template with precision 12 on all of F: the
non-finite values render as inf, -inf and NaN. -/
def F.fmtFixed12 : F → List Char
  | F.finite q => fixed12 q
  | F.inf => ['i', 'n', 'f']
  | F.neginf => ['-', 'i', 'n', 'f']
  | F.nan => ['N', 'a', 'N']

/- The Rust call trim_end_matches: strip every trailing occurrence of c. -/
def trimTrailing (c : Char) (l : List Char) : List Char :=
  (l.reverse.dropWhile (fun x => x == c)).reverse

/- format_float of src/calc.rs (lines 252 to 257). -/
def format_float (v : F) : String :=
  if F.eqZero v then "0"
  else
    let s := trimTrailing '.' (trimTrailing '0' (F.fmtFixed12 v))
    if s = ['-', '0'] then "0" else String.mk s

/- evaluate of src/calc.rs (lines 245 to 250). -/
def evaluate (expression : String) : PResult String :=
  match tokenize expression with
  | Except.error e => PResult.err e
  | Except.ok tokens =>
    match to_rpn tokens with
    | Except.error e => PResult.err e
    | Except.ok rpn =>
      match eval_rpn rpn with
      | PResult.fatal m => PResult.fatal m
      | PResult.err e => PResult.err e
      | PResult.ok v => PResult.ok (format_float v)

/- Specification-side decimal grammar for the round-trip property: an
optional minus sign, a nonempty digit run, and an optional dot followed by
a nonempty digit run.  Exactly the strings str::parse::<f64> accepts among
the outputs the formatter can produce. -/
def isDecimal (s : String) : Bool :=
  let l := if s.data.head? = some '-' then s.data.tail else s.data
  let ip := l.takeWhile Char.isDigit
  let rest := l.dropWhile Char.isDigit
  !ip.isEmpty &&
    (rest.isEmpty ||
      (if rest.head? = some '.' then !rest.tail.isEmpty && rest.tail.all Char.isDigit
       else false))

/- The ten decimal digit characters, for invariants about formatter
output. -/
def digitList : List Char :=
  ['0', '1', '2', '3', '4', '5', '6', '7', '8', '9']



/- Helper lemmas about digit characters and the formatter output shape. -/

theorem digitChar_mem (n : Nat) : digitChar n ∈ digitList := by
  unfold digitChar
  split_ifs <;> decide

theorem natDigitsAux_mem :
    ∀ fuel n : Nat, ∀ c : Char, c ∈ natDigitsAux fuel n → c ∈ digitList := by
  intro fuel
  induction fuel with
  | zero => intro n c hc; simp [natDigitsAux] at hc
  | succ fuel ih =>
    intro n c hc
    rw [natDigitsAux] at hc
    split at hc
    · rcases List.mem_singleton.mp hc with rfl
      exact digitChar_mem n
    · rcases List.mem_append.mp hc with h | h
      · exact ih _ _ h
      · rcases List.mem_singleton.mp h with rfl
        exact digitChar_mem n

theorem natDigits_mem (n : Nat) (c : Char) (hc : c ∈ natDigits n) : c ∈ digitList :=
  natDigitsAux_mem (n + 1) n c hc

theorem natDigits_ne_nil (n : Nat) : natDigits n ≠ [] := by
  unfold natDigits natDigitsAux
  split <;> simp

theorem mem_digit_isDigit (c : Char) (h : c ∈ digitList) : c.isDigit = true := by
  simp only [digitList] at h
  fin_cases h <;> decide

theorem mem_digit_ne_dash (c : Char) (h : c ∈ digitList) : c ≠ '-' := by
  simp only [digitList] at h
  fin_cases h <;> decide

theorem mem_digit_ne_dot (c : Char) (h : c ∈ digitList) : c ≠ '.' := by
  simp only [digitList] at h
  fin_cases h <;> decide

theorem mem_digit_beq_dot (c : Char) (h : c ∈ digitList) : (c == '.') = false := by
  simp only [digitList] at h
  fin_cases h <;> decide

theorem dropWhile_head_not {α : Type} (p : α → Bool) (l : List α) :
    ∀ a t, l.dropWhile p = a :: t → p a = false := by
  induction l with
  | nil => intro a t h; simp [List.dropWhile] at h
  | cons c r ih =>
    intro a t h
    by_cases hc : p c
    · rw [List.dropWhile_cons_of_pos hc] at h
      exact ih a t h
    · rw [List.dropWhile_cons_of_neg hc] at h
      rcases h with ⟨rfl, rfl⟩
      exact Bool.eq_false_iff.mpr hc

/- Core shape analysis of the two trimming passes of format_float: on input
sign digits dot digits, either some fraction digits survive (and the last
survivor is not a zero), or the fraction and the dot are removed whole. -/
theorem trim_shape_core (A F12 : List Char)
    (hA : A ≠ []) (hAlast : ∀ c : Char, A.getLast? = some c → c ∈ digitList)
    (hFmem : ∀ c ∈ F12, c ∈ digitList) :
    (∃ R : List Char, R ≠ [] ∧ (∀ c ∈ R, c ∈ digitList) ∧ R.getLast? ≠ some '0' ∧
      trimTrailing '.' (trimTrailing '0' (A ++ '.' :: F12)) = A ++ '.' :: R)
    ∨ trimTrailing '.' (trimTrailing '0' (A ++ '.' :: F12)) = A := by
  have h1 : (A ++ '.' :: F12).reverse = F12.reverse ++ '.' :: A.reverse := by
    simp
  cases hR : F12.reverse.dropWhile (fun x => x == '0') with
  | nil =>
    right
    have hT1 : trimTrailing '0' (A ++ '.' :: F12) = A ++ ['.'] := by
      unfold trimTrailing
      rw [h1, List.dropWhile_append, hR]
      simp only [List.isEmpty_nil, if_true]
      rw [List.dropWhile_cons_of_neg (by decide)]
      simp
    rw [hT1]
    unfold trimTrailing
    have h2 : (A ++ ['.']).reverse = '.' :: A.reverse := by simp
    rw [h2, List.dropWhile_cons_of_pos (by decide)]
    cases hA2 : A.reverse with
    | nil =>
      exact absurd (by simpa using congrArg List.reverse hA2) hA
    | cons c t =>
      have hc : A.getLast? = some c := by
        rw [List.getLast?_eq_head?_reverse, hA2]; rfl
      have hcd : c ∈ digitList := hAlast c hc
      rw [List.dropWhile_cons_of_neg (by simp [mem_digit_beq_dot c hcd])]
      rw [← hA2, List.reverse_reverse]
  | cons a t =>
    left
    have hsub : ∀ c ∈ (a :: t), c ∈ digitList := by
      intro c hcmem
      have hcrev : c ∈ F12.reverse := (List.dropWhile_sublist _).mem (hR ▸ hcmem)
      exact hFmem c (List.mem_reverse.mp hcrev)
    have hhead : (a == '0') = false := dropWhile_head_not _ _ a t hR
    have hT1 : trimTrailing '0' (A ++ '.' :: F12) = A ++ '.' :: (a :: t).reverse := by
      unfold trimTrailing
      rw [h1, List.dropWhile_append, hR]
      simp
    refine ⟨(a :: t).reverse, by simp, ?_, ?_, ?_⟩
    · intro c hc
      exact hsub c (List.mem_reverse.mp hc)
    · rw [List.getLast?_eq_head?_reverse, List.reverse_reverse]
      intro hcontr
      rw [List.head?_cons, Option.some.injEq] at hcontr
      subst hcontr
      simp at hhead
    · rw [hT1]
      unfold trimTrailing
      have h3 : (A ++ '.' :: (a :: t).reverse).reverse = a :: (t ++ '.' :: A.reverse) := by
        simp
      rw [h3]
      rw [List.dropWhile_cons_of_neg
        (by simp [mem_digit_beq_dot a (hsub a (List.mem_cons_self a t))])]
      have h4 : a :: (t ++ '.' :: A.reverse) = (A ++ '.' :: (a :: t).reverse).reverse := h3.symm
      rw [h4, List.reverse_reverse]

/- Last element of a nonempty digit list is a digit. -/
theorem getLast_digit (sign I : List Char)
    (hI : I ≠ []) (hImem : ∀ c ∈ I, c ∈ digitList) :
    ∀ c : Char, (sign ++ I).getLast? = some c → c ∈ digitList := by
  intro c hc
  rw [List.getLast?_append] at hc
  cases hIlast : I.getLast? with
  | none => exact absurd (List.getLast?_eq_none_iff.mp hIlast) hI
  | some d =>
    rw [hIlast, Option.or_some, Option.some.injEq] at hc
    subst hc
    apply hImem
    rw [List.getLast?_eq_head?_reverse] at hIlast
    have : d ∈ I.reverse := by
      cases hrev : I.reverse with
      | nil => rw [hrev] at hIlast; exact absurd hIlast (by simp)
      | cons x t =>
        rw [hrev] at hIlast
        rw [List.head?_cons, Option.some.injEq] at hIlast
        subst hIlast
        exact List.mem_cons_self x t
    exact List.mem_reverse.mp this

/- Structure of the data of format_float on a finite value: the string 0,
or an optional sign, nonempty integer digits, and an optional dot followed
by nonempty fraction digits whose last digit is nonzero. -/
theorem format_finite_shape (q : ℚ) :
    (format_float (F.finite q)).data = ['0'] ∨
    ∃ sign I R : List Char,
      (sign = [] ∨ sign = ['-']) ∧ I ≠ [] ∧ (∀ c ∈ I, c ∈ digitList) ∧
      (∀ c ∈ R, c ∈ digitList) ∧
      (R = [] → sign ++ I ≠ ['-', '0']) ∧
      (R ≠ [] → R.getLast? ≠ some '0') ∧
      (format_float (F.finite q)).data = sign ++ I ++ (if R = [] then [] else '.' :: R) := by
  by_cases h0 : F.eqZero (F.finite q) = true
  · left
    simp [format_float, h0]
  · have hsign : (if q < 0 then ['-'] else ([] : List Char)) = [] ∨
        (if q < 0 then ['-'] else ([] : List Char)) = ['-'] := by
      split
      · right; rfl
      · left; rfl
    set m : Nat := (roundHalf (q * 1000000000000)).natAbs with hm
    set sign : List Char := if q < 0 then ['-'] else [] with hsgn
    set I : List Char := natDigits (m / 1000000000000) with hIdef
    set F12 : List Char :=
      List.replicate (12 - (natDigits (m % 1000000000000)).length) '0' ++
        natDigits (m % 1000000000000) with hF12
    have hI : I ≠ [] := natDigits_ne_nil _
    have hImem : ∀ c ∈ I, c ∈ digitList := fun c hc => natDigits_mem _ c hc
    have hFmem : ∀ c ∈ F12, c ∈ digitList := by
      intro c hc
      rcases List.mem_append.mp hc with h | h
      · rw [List.eq_of_mem_replicate h]; decide
      · exact natDigits_mem _ c h
    have hfx : F.fmtFixed12 (F.finite q) = (sign ++ I) ++ '.' :: F12 := by
      show fixed12 q = (sign ++ I) ++ '.' :: F12
      unfold fixed12
      rw [List.append_assoc]
    have hff : format_float (F.finite q) =
        (if trimTrailing '.' (trimTrailing '0' (F.fmtFixed12 (F.finite q))) = ['-', '0']
          then "0"
          else String.mk (trimTrailing '.' (trimTrailing '0' (F.fmtFixed12 (F.finite q))))) := by
      simp [format_float, h0]
    rcases trim_shape_core (sign ++ I) F12 (by simp [hI]) (getLast_digit sign I hI hImem)
        hFmem with ⟨R, hRne, hRmem, hRlast, hRtrim⟩ | htrim
    · right
      have hsne : (sign ++ I) ++ '.' :: R ≠ ['-', '0'] := by
        intro hcontr
        have : '.' ∈ (sign ++ I) ++ '.' :: R :=
          List.mem_append_right _ (List.mem_cons_self _ _)
        rw [hcontr] at this
        simp at this
      refine ⟨sign, I, R, hsign, hI, hImem, hRmem, fun hR0 => absurd hR0 hRne,
        fun _ => hRlast, ?_⟩
      rw [hff, hfx, hRtrim, if_neg hsne]
      simp [hRne, List.append_assoc]
    · by_cases hs0 : sign ++ I = ['-', '0']
      · left
        rw [hff, hfx, htrim, if_pos hs0]
      · right
        refine ⟨sign, I, [], hsign, hI, hImem, by simp, fun _ => hs0, by simp, ?_⟩
        rw [hff, hfx, htrim, if_neg hs0]
        simp

/- A string of the produced shape satisfies the decimal grammar. -/
theorem isDecimal_shape (sign I X : List Char)
    (hsign : sign = [] ∨ sign = ['-'])
    (hI : I ≠ []) (hImem : ∀ c ∈ I, c ∈ digitList)
    (hX : X = [] ∨ ∃ R : List Char, R ≠ [] ∧ (∀ c ∈ R, c ∈ digitList) ∧ X = '.' :: R) :
    isDecimal (String.mk (sign ++ I ++ X)) = true := by
  have hdropI : I.dropWhile Char.isDigit = [] :=
    List.dropWhile_eq_nil_iff.mpr (fun c hc => mem_digit_isDigit c (hImem c hc))
  have htakeI : I.takeWhile Char.isDigit = I := by
    have h := List.takeWhile_append_dropWhile (p := Char.isDigit) (l := I)
    rwa [hdropI, List.append_nil] at h
  obtain ⟨c0, t0, hI0⟩ : ∃ c0 t0, I = c0 :: t0 := by
    cases I with
    | nil => exact absurd rfl hI
    | cons a b => exact ⟨a, b, rfl⟩
  have hc0 : c0 ∈ digitList := hImem c0 (hI0 ▸ List.mem_cons_self _ _)
  have hl : (if (sign ++ I ++ X).head? = some '-'
      then (sign ++ I ++ X).tail else (sign ++ I ++ X)) = I ++ X := by
    rcases hsign with rfl | rfl
    · rw [List.nil_append, hI0]
      rw [if_neg]
      simp only [List.cons_append, List.head?_cons, Option.some.injEq]
      exact fun hcontr => mem_digit_ne_dash c0 hc0 hcontr
    · rfl
  have htake : (I ++ X).takeWhile Char.isDigit = I := by
    rcases hX with rfl | ⟨R, hRne, hRmem, rfl⟩
    · rw [List.append_nil, htakeI]
    · rw [List.takeWhile_append, htakeI, if_pos rfl,
        List.takeWhile_cons_of_neg (by decide), List.append_nil]
  have hdrop : (I ++ X).dropWhile Char.isDigit = X := by
    rcases hX with rfl | ⟨R, hRne, hRmem, rfl⟩
    · rw [List.append_nil, hdropI]
    · rw [List.dropWhile_append, hdropI]
      simp only [List.isEmpty_nil, if_true]
      rw [List.dropWhile_cons_of_neg (by decide)]
  show (let l := if (sign ++ I ++ X).head? = some '-'
          then (sign ++ I ++ X).tail else (sign ++ I ++ X)
        let ip := l.takeWhile Char.isDigit
        let rest := l.dropWhile Char.isDigit
        (!ip.isEmpty &&
          (rest.isEmpty ||
            (if rest.head? = some '.' then !rest.tail.isEmpty && rest.tail.all Char.isDigit
             else false)))) = true
  rw [hl]
  simp only [htake, hdrop]
  rcases hX with rfl | ⟨R, hRne, hRmem, rfl⟩
  · simp [hI0]
  · have hRall : R.all Char.isDigit = true :=
      List.all_eq_true.mpr (fun c hc => mem_digit_isDigit c (hRmem c hc))
    simp [hI0, hRne, hRall]

theorem string_eq_of_data {s : String} {l : List Char} (h : s.data = l) :
    s = String.mk l := by
  cases s
  exact congrArg String.mk h

theorem getLast?_append_ne_nil {Y Z : List Char} (hY : Y ≠ []) :
    (Z ++ Y).getLast? = Y.getLast? := by
  rw [List.getLast?_append]
  cases hYl : Y.getLast? with
  | none => exact absurd (List.getLast?_eq_none_iff.mp hYl) hY
  | some d => rw [Option.or_some]

/- Every output of format_float is a decimal-grammar string or one of the
three non-finite renderings. -/
theorem isDecimal_format (v : F) :
    isDecimal (format_float v) = true ∨
      format_float v = "inf" ∨ format_float v = "-inf" ∨ format_float v = "NaN" := by
  cases v with
  | inf => right; left; with_unfolding_all rfl
  | neginf => right; right; left; with_unfolding_all rfl
  | nan => right; right; right; with_unfolding_all rfl
  | finite q =>
    left
    rcases format_finite_shape q with hdata |
      ⟨sign, I, R, hsign, hI, hImem, hRmem, _hR0, _hRlast, hdata⟩
    · rw [string_eq_of_data hdata]
      decide
    · rw [string_eq_of_data hdata]
      apply isDecimal_shape sign I _ hsign hI hImem
      by_cases hR : R = []
      · left; rw [if_pos hR]
      · right; exact ⟨R, hR, hRmem, by rw [if_neg hR]⟩

/- The output of format_float never ends in a dot. -/
theorem format_no_trailing_dot (v : F) :
    (format_float v).data.getLast? ≠ some '.' := by
  cases v with
  | inf => with_unfolding_all decide
  | neginf => with_unfolding_all decide
  | nan => with_unfolding_all decide
  | finite q =>
    rcases format_finite_shape q with hdata |
      ⟨sign, I, R, hsign, hI, hImem, hRmem, _hR0, _hRlast, hdata⟩
    · rw [hdata]; decide
    · rw [hdata]
      by_cases hR : R = []
      · rw [if_pos hR, List.append_nil]
        cases hgl : (sign ++ I).getLast? with
        | none => exact fun hcontr => Option.noConfusion hcontr
        | some c =>
          have hc : c ∈ digitList := getLast_digit sign I hI hImem c hgl
          exact fun hcontr => mem_digit_ne_dot c hc (Option.some.inj hcontr)
      · rw [if_neg hR]
        have h1 : (sign ++ I ++ '.' :: R).getLast? = R.getLast? := by
          rw [getLast?_append_ne_nil (by simp)]
          rw [show ('.' :: R) = ['.'] ++ R from rfl, getLast?_append_ne_nil hR]
        rw [h1]
        cases hgl : R.getLast? with
        | none => exact absurd (List.getLast?_eq_none_iff.mp hgl) hR
        | some c =>
          have hcr : c ∈ R := by
            rw [List.getLast?_eq_head?_reverse] at hgl
            cases hrev : R.reverse with
            | nil => rw [hrev] at hgl; exact absurd hgl (by simp)
            | cons x t =>
              rw [hrev, List.head?_cons, Option.some.injEq] at hgl
              subst hgl
              exact List.mem_reverse.mp (hrev ▸ List.mem_cons_self x t)
          intro hcontr
          rw [Option.some.injEq] at hcontr
          exact mem_digit_ne_dot c (hRmem c hcr) hcontr

/- The output of format_float is never the string -0. -/
theorem format_ne_neg0 (v : F) : format_float v ≠ "-0" := by
  cases v with
  | inf => with_unfolding_all decide
  | neginf => with_unfolding_all decide
  | nan => with_unfolding_all decide
  | finite q =>
    rcases format_finite_shape q with hdata |
      ⟨sign, I, R, hsign, hI, hImem, hRmem, hR0, _hRlast, hdata⟩
    · intro hcontr
      rw [hcontr] at hdata
      exact absurd hdata (by decide)
    · intro hcontr
      rw [hcontr] at hdata
      by_cases hR : R = []
      · rw [if_pos hR, List.append_nil] at hdata
        exact hR0 hR hdata.symm
      · rw [if_neg hR] at hdata
        have hdot : '.' ∈ ("-0" : String).data := by
          rw [hdata]
          exact List.mem_append_right _ (List.mem_cons_self _ _)
        exact absurd hdot (by decide)

/- If the output of format_float ends in a zero digit then it contains no
dot: trailing zeros of the fraction are stripped. -/
theorem format_last_zero_no_dot (v : F) :
    (format_float v).data.getLast? ≠ some '0' ∨ '.' ∉ (format_float v).data := by
  cases v with
  | inf => left; with_unfolding_all decide
  | neginf => left; with_unfolding_all decide
  | nan => left; with_unfolding_all decide
  | finite q =>
    rcases format_finite_shape q with hdata |
      ⟨sign, I, R, hsign, hI, hImem, hRmem, _hR0, hRlast, hdata⟩
    · right; rw [hdata]; decide
    · by_cases hR : R = []
      · right
        rw [hdata, if_pos hR, List.append_nil]
        intro hcontr
        rcases List.mem_append.mp hcontr with h | h
        · rcases hsign with rfl | rfl
          · exact absurd h (by decide)
          · exact absurd h (by decide)
        · exact mem_digit_ne_dot '.' (hImem '.' h) rfl
      · left
        rw [hdata, if_neg hR]
        have h1 : (sign ++ I ++ '.' :: R).getLast? = R.getLast? := by
          rw [getLast?_append_ne_nil (by simp)]
          rw [show ('.' :: R) = ['.'] ++ R from rfl, getLast?_append_ne_nil hR]
        rw [h1]
        exact hRlast hR

/-- C1 counterexample: evaluate on the string -2 caret 2 does not return 4;
the unary minus becomes 0 Sub, but Sub has precedence 1, below Pow, so the
expression groups as 0 - (2 pow 2). -/
theorem evaluate_neg_pow_cex : evaluate "-2 ^ 2" ≠ PResult.ok "4" := by
  with_unfolding_all decide

/-- C1 amended: the tokenizer does emit Number 0 and Sub for the unary
minus, but evaluate returns -4, because the inserted Sub keeps its binary
precedence 1 and binds more loosely than Pow: the expression evaluates as
0 - (2 pow 2) = -4, not (0 - 2) pow 2 = 4. -/
theorem evaluate_neg_pow_amended :
    tokenize "-2 ^ 2" = Except.ok [Token.number (F.finite 0), Token.op Op.sub,
      Token.number (F.finite 2), Token.op Op.pow, Token.number (F.finite 2)] ∧
    evaluate "-2 ^ 2" = PResult.ok "-4" := by
  exact ⟨by with_unfolding_all rfl, by with_unfolding_all rfl⟩

/-- C2 counterexample: evaluate on the string 1 + 2 followed by a right
parenthesis succeeds with 3 instead of failing: the converter loop that
pops for a RightParen simply ends when the stack is exhausted without a
LeftParen, raising no error. -/
theorem paren_mismatch_cex : evaluate "1 + 2)" = PResult.ok "3" := by
  with_unfolding_all rfl

/-- C2 amended: a leftover LeftParen at the end of input is a fatal
mismatched-parentheses error, but an unmatched RightParen is silently
ignored: evaluate of the string ( 1 + 2 fails with the mismatched message
while evaluate of 1 + 2 ) succeeds and returns 3. -/
theorem paren_mismatch_amended :
    evaluate "(1 + 2" = PResult.err "괄호가 올바르지 않습니다" ∧
    evaluate "1 + 2)" = PResult.ok "3" := by
  exact ⟨by with_unfolding_all rfl, by with_unfolding_all rfl⟩

/-- C3: a bare identifier that is never resolved into a function call
survives conversion and reaches the unreachable branch of eval_rpn, so the
call aborts (modelled as the fatal outcome) instead of returning a Result;
both witnesses from the claim text are shown. -/
theorem evaluate_bare_ident_fatal :
    evaluate "foo" = PResult.fatal "Ident는 변환 단계에서만 사용됩니다" ∧
    evaluate "sin 2 * (3)" = PResult.fatal "Ident는 변환 단계에서만 사용됩니다" := by
  exact ⟨by with_unfolding_all rfl, by with_unfolding_all rfl⟩

/-- C4: the converter accepts the single-token sequence consisting of the
bare identifier foo (produced by tokenize on foo) and returns it in the
final RPN output, so the claimed invariant that accepted outputs contain no
Identifier token fails. -/
theorem to_rpn_ident_leak :
    tokenize "foo" = Except.ok [Token.ident "foo"] ∧
    to_rpn [Token.ident "foo"] = Except.ok [Token.ident "foo"] := by
  exact ⟨by with_unfolding_all rfl, by with_unfolding_all rfl⟩

/-- C5 counterexample: tokenize on the string dot five does not produce
Number 0.5; the leading dot sets the dot flag before the scan loop, which
then stops at that same dot with an empty literal, and parsing the empty
literal fails. -/
theorem tokenize_leading_dot_cex :
    tokenize ".5" ≠ Except.ok [Token.number (F.finite (1 / 2))] := by
  with_unfolding_all decide

/-- C5 amended: tokenize on a number with a leading dot fails with the
malformed-number error; a second dot inside a number does terminate the
number scan without consuming the dot (scanNum on 1.2.3 stops after 1.2),
but the unconsumed dot then starts a new empty literal and tokenize fails
with the same malformed-number error. -/
theorem tokenize_leading_dot_amended :
    tokenize ".5" = Except.error "잘못된 숫자 형식" ∧
    scanNum false ['1', '.', '2', '.', '3'] = (['1', '.', '2'], ['.', '3']) ∧
    tokenize "1.2.3" = Except.error "잘못된 숫자 형식" := by
  exact ⟨by with_unfolding_all rfl, by with_unfolding_all rfl, by with_unfolding_all rfl⟩

/-- C6 counterexample: on the input sin-1 the minus directly after an
identifier is not emitted as a plain binary Sub; a Number 0 is inserted
before it. -/
theorem tokenize_ident_minus_cex :
    tokenize "sin-1" ≠ Except.ok [Token.ident "sin", Token.op Op.sub,
      Token.number (F.finite 1)] := by
  with_unfolding_all decide

/-- C6 amended: the tokenizer sets the unary-capable flag to true, not
false, immediately after an identifier (line 90 of src/calc.rs), so a
minus directly following an identifier is treated as unary and the
tokenizer inserts Number 0 before the Sub, with or without whitespace. -/
theorem tokenize_ident_minus_amended :
    tokenize "sin-1" = Except.ok [Token.ident "sin", Token.number (F.finite 0),
      Token.op Op.sub, Token.number (F.finite 1)] ∧
    tokenize "x - 1" = Except.ok [Token.ident "x", Token.number (F.finite 0),
      Token.op Op.sub, Token.number (F.finite 1)] := by
  exact ⟨by with_unfolding_all rfl, by with_unfolding_all rfl⟩

/-- C7 counterexample: the input 9 caret 400 is balanced and fully
resolvable, yet its success value is the string inf, which the decimal
grammar rejects: the power overflows the finite f64 range and the operator
branch performs no finiteness check. -/
theorem evaluate_ok_decimal_cex :
    evaluate "9 ^ 400" = PResult.ok "inf" ∧ isDecimal "inf" = false := by
  exact ⟨by with_unfolding_all rfl, by with_unfolding_all rfl⟩

/-- C7 amended: every success value of evaluate either parses as a decimal
number or is one of the three non-finite renderings inf, -inf and NaN
(reachable through overflow or NaN results of the operator branch, which
checks no finiteness). -/
theorem evaluate_ok_decimal_amended (s r : String) (h : evaluate s = PResult.ok r) :
    isDecimal r = true ∨ r = "inf" ∨ r = "-inf" ∨ r = "NaN" := by
  unfold evaluate at h
  split at h
  · exact PResult.noConfusion h
  · split at h
    · exact PResult.noConfusion h
    · split at h
      · exact PResult.noConfusion h
      · exact PResult.noConfusion h
      · rename_i v _
        rw [← PResult.ok.inj h]
        exact isDecimal_format v

/-- C7 witness: the amended theorem applied to the input 2 + 3 and its
success value 5. -/
theorem evaluate_ok_decimal_witness :
    evaluate "2 + 3" = PResult.ok "5" ∧
    (isDecimal "5" = true ∨ "5" = "inf" ∨ "5" = "-inf" ∨ "5" = "NaN") :=
  ⟨by with_unfolding_all rfl,
    evaluate_ok_decimal_amended "2 + 3" "5" (by with_unfolding_all rfl)⟩

/-- C8: the four reference results of the specification hold: addition,
multiplication precedence over addition, parenthesised grouping, and the
right associativity of the power operator. -/
theorem evaluate_precedence_examples :
    evaluate "2 + 3" = PResult.ok "5" ∧
    evaluate "2 + 3 * 4" = PResult.ok "14" ∧
    evaluate "(2 + 3) * 4" = PResult.ok "20" ∧
    evaluate "2 ^ 3 ^ 2" = PResult.ok "512" := by
  exact ⟨by with_unfolding_all rfl, by with_unfolding_all rfl,
    by with_unfolding_all rfl, by with_unfolding_all rfl⟩

/-- C9: the division branch fails with the division-by-zero message exactly
when the right operand compares equal to zero (the rational model has a
single zero, matching the f64 equality that identifies 0.0 and -0.0), and
the two reference inputs of the claim fail with that same message. -/
theorem div_zero_error_iff :
    (∀ a b : F, (applyOp Op.div a b = Except.error "0으로 나눌 수 없습니다") ↔
      F.eqZero b = true) ∧
    evaluate "1 / 0" = PResult.err "0으로 나눌 수 없습니다" ∧
    evaluate "1 / (2 - 2)" = PResult.err "0으로 나눌 수 없습니다" := by
  refine ⟨fun a b => ?_, by with_unfolding_all rfl, by with_unfolding_all rfl⟩
  by_cases h : F.eqZero b = true
  · simp [applyOp, h]
  · simp [applyOp, h]

/-- C10: format_float renders exact zero as the string 0; and for every
value it never emits a bare trailing dot, never returns the string -0, and
whenever the result ends in a zero digit the result contains no decimal
point (trailing fraction zeros are stripped). -/
theorem format_float_spec :
    format_float (F.finite 0) = "0" ∧
    ∀ v : F,
      (format_float v).data.getLast? ≠ some '.' ∧
      format_float v ≠ "-0" ∧
      ((format_float v).data.getLast? ≠ some '0' ∨ '.' ∉ (format_float v).data) :=
  ⟨by with_unfolding_all rfl,
    fun v => ⟨format_no_trailing_dot v, format_ne_neg0 v, format_last_zero_no_dot v⟩⟩

end AuroCalc
